import Mathlib

/-!
Verification of the portfolio-rebalancer core: the drift calculator,
allocation validator, transaction publisher/consumer pipeline and the
rebalance orchestrator, shallowly embedded from the Go source.
Percentages (Go `float64`) are modelled as rationals; Go maps
(`map[string]float64`) are association lists with unique keys;
side-effecting collaborators (queue, store) are explicit parameters.
-/

namespace PortfolioRebalancer

/-- `models.RebalanceTransaction` (internal/models/portfolio.go). -/
structure RebalanceTransaction where
  userID : String
  action : String
  asset : String
  rebalancePercent : ℚ
  timestamp : String
  deriving DecidableEq, Repr

/-- A Go `map[string]float64`, modelled as an association list; the
map property (unique keys) is carried as a `Nodup` hypothesis where needed. -/
abbrev Allocation := List (String × ℚ)

/-- Go map indexing `m[k]`: the mapped value, or the zero value 0 when absent. -/
def lookupD : Allocation → String → ℚ
  | [], _ => 0
  | (a, p) :: rest, k => if a = k then p else lookupD rest k

/-- Go's two-result map lookup `_, exists := m[k]`: whether the key is present. -/
def containsKey : Allocation → String → Bool
  | [], _ => false
  | (a, _) :: rest, k => a == k || containsKey rest k

/-- Body of the first loop of `CalculateRebalance` (services, part_005):
for a target entry `(asset, targetPercent)`, emit the dead-banded
SELL/BUY transaction, or nothing when the difference is negligible. -/
def emitTarget (currentAllocation : Allocation) (userID ts : String)
    (entry : String × ℚ) : Option RebalanceTransaction :=
  let currentPercent := lookupD currentAllocation entry.1
  let diff := currentPercent - entry.2
  if |diff| < 1/100 then none
  else if diff > 0 then
    some ⟨userID, "SELL", entry.1, diff, ts⟩
  else
    some ⟨userID, "BUY", entry.1, |diff|, ts⟩

/-- Body of the second loop of `CalculateRebalance`: a current-allocation
entry whose asset is absent from the target and above the dust threshold
is fully divested. -/
def emitOrphan (targetAllocation : Allocation) (userID ts : String)
    (entry : String × ℚ) : Option RebalanceTransaction :=
  if ¬ containsKey targetAllocation entry.1 ∧ entry.2 > 1/100 then
    some ⟨userID, "SELL", entry.1, entry.2, ts⟩
  else none

/-- `CalculateRebalance` (services, part_005, lines 34-84).  The batch
timestamp, taken once from the clock in the source, is a parameter `ts`. -/
def calculateRebalance (currentAllocation targetAllocation : Allocation)
    (userID ts : String) : List RebalanceTransaction :=
  targetAllocation.filterMap (emitTarget currentAllocation userID ts)
    ++ currentAllocation.filterMap (emitOrphan targetAllocation userID ts)

/-- The error cases of `models.ValidateAllocation`. -/
inductive AllocError where
  | empty : AllocError
  | negative (asset : String) : AllocError
  | badSum (total : ℚ) : AllocError
  deriving DecidableEq, Repr

/-- The accumulation loop of `ValidateAllocation`: reject the first
negative value, otherwise return the running total. -/
def sumValues : Allocation → ℚ → Except AllocError ℚ
  | [], total => .ok total
  | (asset, percent) :: rest, total =>
    if percent < 0 then .error (.negative asset)
    else sumValues rest (total + percent)

/-- `models.ValidateAllocation` (internal/models/portfolio.go, lines 29-48). -/
def validateAllocation (allocation : Allocation) : Except AllocError Unit :=
  if allocation.length = 0 then .error .empty
  else
    match sumValues allocation 0 with
    | .error e => .error e
    | .ok total =>
      if |total - 100| > 1/100 then .error (.badSum total)
      else .ok ()

/-- The transaction Store (the Elasticsearch `rebalance_transactions`
index): a key-value map from document id to stored record. -/
abbrev Store := String → Option RebalanceTransaction

/-- The document id built by `SaveTransaction`
(internal/repository/transaction_repository.go, line 42):
the composite string userID_asset_timestamp. -/
def docID (tx : RebalanceTransaction) : String :=
  tx.userID ++ "_" ++ tx.asset ++ "_" ++ tx.timestamp

/-- `SaveTransaction` (internal/repository/transaction_repository.go,
lines 32-59): index the record under its document id. -/
def saveTransaction (store : Store) (tx : RebalanceTransaction) : Store :=
  fun k => if k = docID tx then some tx else store k

/-- Delivering a whole batch to the Store: each transaction persisted in
order (the consumer loop of `ProcessTransactions` when each save succeeds). -/
def applyBatch (store : Store) (batch : List RebalanceTransaction) : Store :=
  batch.foldl saveTransaction store

/-- The per-batch save loop of `ProcessTransactions` (services, part_005,
lines 123-129): `save` is the Store's behaviour, which may fail on any
transaction; a failure leaves the store as it was and the loop continues.
Returns the final store and the list of transactions attempted. -/
def attemptAll (save : Store → RebalanceTransaction → Except String Store) :
    Store → List RebalanceTransaction → Store × List RebalanceTransaction
  | store, [] => (store, [])
  | store, tx :: rest =>
    let store' := match save store tx with
      | .ok s => s
      | .error _ => store
    let result := attemptAll save store' rest
    (result.1, tx :: result.2)

/-- Outcome of one consumer message: final store state, the transactions
whose persistence was attempted, and the returned error value. -/
structure ConsumeResult where
  store : Store
  attempted : List RebalanceTransaction
  result : Except String Unit

/-- `ProcessTransactions` (services, part_005, lines 104-135).  `parse`
is `json.Unmarshal` into a transaction batch (an arbitrary
deserializer), `save` the Store's behaviour. -/
def processTransactions
    (parse : List Nat → Option (List RebalanceTransaction))
    (save : Store → RebalanceTransaction → Except String Store)
    (store : Store) (message : List Nat) : ConsumeResult :=
  if message.length = 0 then ⟨store, [], .ok ()⟩
  else
    match parse message with
    | none => ⟨store, [], .ok ()⟩
    | some transactions =>
      if transactions.length = 0 then ⟨store, [], .ok ()⟩
      else
        let r := attemptAll save store transactions
        ⟨r.1, r.2, .ok ()⟩

/-- `PublishRebalanceTransactions` (services, part_005, lines 86-101).
`serialize` is `json.Marshal`, `publish` the Publisher's behaviour.
Besides the error value, returns the list of payloads handed to the
publisher, so that "never touches the Queue" is observable. -/
def publishRebalanceTransactions
    (serialize : List RebalanceTransaction → Option (List Nat))
    (publish : List Nat → Except String Unit)
    (transactions : List RebalanceTransaction) :
    Except String Unit × List (List Nat) :=
  if transactions.length = 0 then (.ok (), [])
  else
    match serialize transactions with
    | none => (.error "failed to marshal transactions", [])
    | some payload =>
      match publish payload with
      | .ok () => (.ok (), [payload])
      | .error e => (.error ("failed to publish transactions: " ++ e), [payload])

/-- `kafka.Publisher.Publish` (pkg/kafka/publisher.go, lines 22-32): the
writer may be absent (`nil`); with a writer, the message is sent and the
writer's verdict returned.  The second component lists messages handed
to the writer. -/
def kafkaPublish (writer : Option (List Nat → Except String Unit))
    (message : List Nat) : Except String Unit × List (List Nat) :=
  match writer with
  | none => (.ok (), [])
  | some w =>
    match w message with
    | .ok () => (.ok (), [message])
    | .error e => (.error e, [message])

/-- `models.Portfolio` (internal/models/portfolio.go). -/
structure Portfolio where
  userID : String
  allocation : Allocation
  originalAllocation : Allocation
  deriving Repr

/-- `models.UpdatedPortfolio`: the rebalance request body. -/
structure UpdatedPortfolio where
  userID : String
  newAllocation : Allocation
  deriving Repr

/-- The handler's response, abstracting the HTTP wire format of
`HandleRebalance` (handlers, part_003). -/
inductive HResponse where
  | badRequest (msg : String) : HResponse
  | notFound (msg : String) : HResponse
  | serverError (msg : String) : HResponse
  | ok (userID : String) (transactions : List RebalanceTransaction)
      (count : Nat) (msg : String) : HResponse
  deriving Repr

/-- The collaborators of the rebalance orchestrator: the serializer and
queue behaviour behind `PublishRebalanceTransactions`, and whether
`portfolioService.UpdatePortfolio` succeeds. -/
structure RebalanceEnv where
  serialize : List RebalanceTransaction → Option (List Nat)
  publish : List Nat → Except String Unit
  updateOk : Bool

/-- The portfolio Store: user id to stored portfolio. -/
abbrev PortfolioStore := String → Option Portfolio

/-- `HandleRebalance` (handlers, part_003, lines 38-111), after request
decoding: validation, portfolio load, drift calculation, publish, and the
best-effort portfolio update.  Returns the response and the portfolio
store after the request. -/
def handleRebalance (env : RebalanceEnv) (store : PortfolioStore)
    (req : UpdatedPortfolio) (ts : String) : HResponse × PortfolioStore :=
  if req.userID = "" then
    (.badRequest "user_id is required and cannot be empty", store)
  else if req.newAllocation.length = 0 then
    (.badRequest "new_allocation is required and cannot be empty", store)
  else
    match validateAllocation req.newAllocation with
    | .error _ => (.badRequest "invalid allocation", store)
    | .ok () =>
      match store req.userID with
      | none =>
        (.notFound "User portfolio not found. Please create portfolio first using /portfolio endpoint", store)
      | some portfolio =>
        let transactions :=
          calculateRebalance req.newAllocation portfolio.originalAllocation req.userID ts
        match (publishRebalanceTransactions env.serialize env.publish transactions).1 with
        | .error _ =>
          (.serverError "Failed to queue rebalance transactions. Please try again", store)
        | .ok () =>
          let portfolio' := { portfolio with allocation := req.newAllocation }
          let store' : PortfolioStore :=
            if env.updateOk then
              fun k => if k = req.userID then some portfolio' else store k
            else store
          let msg :=
            if transactions.length = 0 then
              "No rebalancing needed - portfolio already at target allocation"
            else "Rebalance transactions queued for processing"
          (.ok req.userID transactions transactions.length msg, store')

/-- The transactions of a batch concerning one asset. -/
def assetTxs (batch : List RebalanceTransaction) (a : String) :
    List RebalanceTransaction :=
  batch.filter (fun tx => tx.asset == a)

/-- The sum of an allocation's percentage values. -/
def sumOf (allocation : Allocation) : ℚ :=
  (allocation.map Prod.snd).sum

section AssocLemmas

theorem containsKey_iff (m : Allocation) (k : String) :
    containsKey m k = true ↔ ∃ p ∈ m, p.1 = k := by
  induction m with
  | nil => simp [containsKey]
  | cons hd tl ih =>
    obtain ⟨a, v⟩ := hd
    simp only [containsKey, Bool.or_eq_true, beq_iff_eq, ih, List.mem_cons]
    constructor
    · rintro (rfl | ⟨p, hp, hpk⟩)
      · exact ⟨(a, v), Or.inl rfl, rfl⟩
      · exact ⟨p, Or.inr hp, hpk⟩
    · rintro ⟨p, (rfl | hp), hpk⟩
      · exact Or.inl hpk
      · exact Or.inr ⟨p, hp, hpk⟩

theorem containsKey_of_mem {m : Allocation} {k : String} {v : ℚ}
    (h : (k, v) ∈ m) : containsKey m k = true :=
  (containsKey_iff m k).2 ⟨(k, v), h, rfl⟩

theorem not_mem_key_of_not_contains {m : Allocation} {k : String}
    (h : containsKey m k = false) : ∀ p ∈ m, p.1 ≠ k := by
  intro p hp hk
  have hc : containsKey m k = true := (containsKey_iff m k).2 ⟨p, hp, hk⟩
  rw [h] at hc
  exact Bool.noConfusion hc

theorem lookupD_eq_of_mem_nodup {m : Allocation} {k : String} {v : ℚ}
    (hnd : (m.map Prod.fst).Nodup) (h : (k, v) ∈ m) : lookupD m k = v := by
  induction m with
  | nil => simp at h
  | cons hd tl ih =>
    obtain ⟨a, w⟩ := hd
    simp only [List.map_cons, List.nodup_cons] at hnd
    rcases List.mem_cons.1 h with heq | hmem
    · cases heq
      simp [lookupD]
    · have hak : a ≠ k :=
        fun hk => hnd.1 (List.mem_map.2 ⟨(k, v), hmem, hk.symm⟩)
      simp only [lookupD, if_neg hak]
      exact ih hnd.2 hmem

theorem lookupD_eq_zero_of_not_contains {m : Allocation} {k : String}
    (h : containsKey m k = false) : lookupD m k = 0 := by
  induction m with
  | nil => rfl
  | cons hd tl ih =>
    obtain ⟨a, w⟩ := hd
    simp only [containsKey, Bool.or_eq_false_iff, beq_eq_false_iff_ne] at h
    simp only [lookupD, if_neg h.1]
    exact ih (by simpa [containsKey] using h.2)

end AssocLemmas

section FilterLemmas

theorem filterMap_filter_asset (f : String × ℚ → Option RebalanceTransaction)
    (hf : ∀ x tx, f x = some tx → tx.asset = x.1) (l : Allocation) (a : String) :
    (l.filterMap f).filter (fun tx => tx.asset == a)
      = (l.filter (fun x => x.1 == a)).filterMap f := by
  induction l with
  | nil => rfl
  | cons x tl ih =>
    by_cases hxa : x.1 = a
    · cases hfx : f x with
      | none => simp [List.filterMap_cons, List.filter_cons, hfx, hxa, ih]
      | some tx =>
        have hasset : tx.asset = a := (hf x tx hfx).trans hxa
        simp [List.filterMap_cons, List.filter_cons, hfx, hxa, hasset, ih]
    · cases hfx : f x with
      | none => simp [List.filterMap_cons, List.filter_cons, hfx, hxa, ih]
      | some tx =>
        have hasset : tx.asset ≠ a := fun h => hxa ((hf x tx hfx).symm.trans h)
        simp [List.filterMap_cons, List.filter_cons, hfx, hxa, hasset, ih]

theorem filter_key_nil {l : Allocation} {a : String}
    (h : ∀ p ∈ l, p.1 ≠ a) : l.filter (fun x => x.1 == a) = [] := by
  induction l with
  | nil => rfl
  | cons x tl ih =>
    have hx : x.1 ≠ a := h x (List.mem_cons_self x tl)
    simp only [List.filter_cons, beq_iff_eq, hx]
    simpa using ih (fun p hp => h p (List.mem_cons_of_mem x hp))

theorem filter_key_singleton {l : Allocation} {a : String} {v : ℚ}
    (hnd : (l.map Prod.fst).Nodup) (h : (a, v) ∈ l) :
    l.filter (fun x => x.1 == a) = [(a, v)] := by
  induction l with
  | nil => simp at h
  | cons x tl ih =>
    simp only [List.map_cons, List.nodup_cons] at hnd
    rcases List.mem_cons.1 h with heq | hmem
    · cases heq
      simp only [List.filter_cons, beq_self_eq_true, if_pos]
      have htl : tl.filter (fun x => x.1 == a) = [] :=
        filter_key_nil (fun p hp hpa =>
          hnd.1 (List.mem_map.2 ⟨p, hp, hpa⟩))
      simp [htl]
    · have hxa : x.1 ≠ a := fun hk =>
        hnd.1 (List.mem_map.2 ⟨(a, v), hmem, hk.symm⟩)
      simp only [List.filter_cons, beq_iff_eq, hxa]
      simpa using ih hnd.2 hmem

theorem filterMap_asset_sublist (f : String × ℚ → Option RebalanceTransaction)
    (hf : ∀ x tx, f x = some tx → tx.asset = x.1) (l : Allocation) :
    ((l.filterMap f).map (fun tx => tx.asset)).Sublist (l.map Prod.fst) := by
  induction l with
  | nil => simp
  | cons x tl ih =>
    cases hfx : f x with
    | none =>
      simp only [List.filterMap_cons, hfx, List.map_cons]
      exact ih.cons x.1
    | some tx =>
      simp only [List.filterMap_cons, hfx, List.map_cons, hf x tx hfx]
      exact ih.cons₂ x.1

theorem length_filter_le_one_of_nodup {batch : List RebalanceTransaction}
    (hnd : (batch.map (fun tx => tx.asset)).Nodup) (a : String) :
    (assetTxs batch a).length ≤ 1 := by
  induction batch with
  | nil => simp [assetTxs]
  | cons tx tl ih =>
    simp only [List.map_cons, List.nodup_cons] at hnd
    by_cases hta : tx.asset = a
    · have htl : assetTxs tl a = [] := by
        rw [assetTxs, List.filter_eq_nil_iff]
        intro t ht
        simp only [beq_iff_eq]
        exact fun hta2 => hnd.1 (List.mem_map.2 ⟨t, ht, hta2.trans hta.symm⟩)
      rw [assetTxs] at htl
      simp [assetTxs, List.filter_cons, hta, htl]
    · simpa [assetTxs, List.filter_cons, hta] using ih hnd.2

theorem mem_calculateRebalance {tx : RebalanceTransaction}
    {current target : Allocation} {u ts : String} :
    tx ∈ calculateRebalance current target u ts ↔
      (∃ e ∈ target, emitTarget current u ts e = some tx)
        ∨ (∃ e ∈ current, emitOrphan target u ts e = some tx) := by
  simp [calculateRebalance, List.mem_append, List.mem_filterMap]

end FilterLemmas

section EmitLemmas

theorem emitTarget_asset {c : Allocation} {u t : String} {e : String × ℚ}
    {tx : RebalanceTransaction} (h : emitTarget c u t e = some tx) :
    tx.asset = e.1 := by
  simp only [emitTarget] at h
  split_ifs at h <;> first
  | (cases h; rfl)
  | simp at h

theorem emitOrphan_asset {tg : Allocation} {u t : String} {e : String × ℚ}
    {tx : RebalanceTransaction} (h : emitOrphan tg u t e = some tx) :
    tx.asset = e.1 := by
  simp only [emitOrphan] at h
  split_ifs at h <;> first
  | (cases h; rfl)
  | simp at h

theorem emitOrphan_eq_none_of_contains {tg : Allocation} {u t : String}
    {e : String × ℚ} (h : containsKey tg e.1 = true) :
    emitOrphan tg u t e = none := by
  simp only [emitOrphan]
  rw [if_neg]
  intro hc
  rw [h] at hc
  exact hc.1 rfl

/-- The slice of the batch concerning an asset of the target allocation is
exactly what the first loop's body emits for that asset. -/
theorem assetTxs_of_mem_target (current target : Allocation) (u ts a : String)
    (tp : ℚ) (hmem : (a, tp) ∈ target) (hnd : (target.map Prod.fst).Nodup) :
    assetTxs (calculateRebalance current target u ts) a
      = (emitTarget current u ts (a, tp)).toList := by
  rw [assetTxs, calculateRebalance, List.filter_append]
  rw [filterMap_filter_asset _ (fun x tx h => emitTarget_asset h) target a]
  rw [filterMap_filter_asset _ (fun x tx h => emitOrphan_asset h) current a]
  rw [filter_key_singleton hnd hmem]
  have h2 : (current.filter (fun x => x.1 == a)).filterMap
      (emitOrphan target u ts) = [] := by
    rw [List.filterMap_eq_nil_iff]
    intro e he
    have hea : e.1 = a := by simpa using (List.mem_filter.1 he).2
    exact emitOrphan_eq_none_of_contains (hea ▸ containsKey_of_mem hmem)
  rw [h2]
  rcases hET : emitTarget current u ts (a, tp) with _ | tx <;>
    simp [List.filterMap_cons, hET]

/-- The slice of the batch concerning a current-allocation asset outside
the target is exactly what the second loop's body emits for it. -/
theorem assetTxs_of_orphan (current target : Allocation) (u ts a : String)
    (cp : ℚ) (hmem : (a, cp) ∈ current) (habs : containsKey target a = false)
    (hnd : (current.map Prod.fst).Nodup) :
    assetTxs (calculateRebalance current target u ts) a
      = (emitOrphan target u ts (a, cp)).toList := by
  rw [assetTxs, calculateRebalance, List.filter_append]
  rw [filterMap_filter_asset _ (fun x tx h => emitTarget_asset h) target a]
  rw [filterMap_filter_asset _ (fun x tx h => emitOrphan_asset h) current a]
  rw [filter_key_nil (not_mem_key_of_not_contains habs)]
  rw [filter_key_singleton hnd hmem]
  rcases hEO : emitOrphan target u ts (a, cp) with _ | tx <;>
    simp [List.filterMap_cons, hEO]

end EmitLemmas

/-- C1: for every asset present in the target allocation,
`CalculateRebalance` computes `diff = current[asset] - target[asset]`
(missing current value read as 0 by map indexing) and emits no
transaction for that asset when `|diff| < 0.01`; otherwise it emits
exactly one transaction for it: SELL with `rebalancePercent = diff` when
`diff > 0`, BUY with `rebalancePercent = |diff|` when `diff < 0`. -/
theorem calculateRebalance_target_asset_spec
    (current target : Allocation) (u ts a : String) (tp : ℚ)
    (hmem : (a, tp) ∈ target) (hnd : (target.map Prod.fst).Nodup) :
    (|lookupD current a - tp| < 1/100 →
       assetTxs (calculateRebalance current target u ts) a = []) ∧
    (1/100 ≤ |lookupD current a - tp| → 0 < lookupD current a - tp →
       assetTxs (calculateRebalance current target u ts) a
         = [⟨u, "SELL", a, lookupD current a - tp, ts⟩]) ∧
    (1/100 ≤ |lookupD current a - tp| → lookupD current a - tp < 0 →
       assetTxs (calculateRebalance current target u ts) a
         = [⟨u, "BUY", a, |lookupD current a - tp|, ts⟩]) := by
  rw [assetTxs_of_mem_target current target u ts a tp hmem hnd]
  refine ⟨fun hsmall => ?_, fun hbig hpos => ?_, fun hbig hneg => ?_⟩
  · rw [emitTarget]
    rw [if_pos hsmall]
    rfl
  · rw [emitTarget]
    rw [if_neg (not_lt.2 hbig), if_pos hpos]
    rfl
  · rw [emitTarget]
    rw [if_neg (not_lt.2 hbig), if_neg (not_lt.2 hneg.le)]
    rfl

/-- Witness for C1 at a concrete input: current 50% stocks against a 60%
target yields exactly one BUY of 10 for stocks. -/
theorem calculateRebalance_target_asset_spec_witness :
    assetTxs (calculateRebalance [("stocks", 50)] [("stocks", 60)] "u1" "t1") "stocks"
      = [⟨"u1", "BUY", "stocks",
           |lookupD [("stocks", 50)] "stocks" - 60|, "t1"⟩] :=
  (calculateRebalance_target_asset_spec [("stocks", 50)] [("stocks", 60)]
      "u1" "t1" "stocks" 60 (by simp) (by simp)).2.2
    (by rw [show lookupD [("stocks", (50 : ℚ))] "stocks" = 50 from rfl]; norm_num [abs_of_nonpos])
    (by rw [show lookupD [("stocks", (50 : ℚ))] "stocks" = 50 from rfl]; norm_num)

/-- C2: an asset held in the current allocation but absent from the
target is fully divested when its current value exceeds 0.01 — exactly
one SELL of the whole current value — and ignored otherwise. -/
theorem calculateRebalance_orphan_asset_spec
    (current target : Allocation) (u ts a : String) (cp : ℚ)
    (hmem : (a, cp) ∈ current) (habs : containsKey target a = false)
    (hnd : (current.map Prod.fst).Nodup) :
    (1/100 < cp →
       assetTxs (calculateRebalance current target u ts) a
         = [⟨u, "SELL", a, cp, ts⟩]) ∧
    (cp ≤ 1/100 →
       assetTxs (calculateRebalance current target u ts) a = []) := by
  rw [assetTxs_of_orphan current target u ts a cp hmem habs hnd]
  constructor
  · intro hbig
    rw [emitOrphan]
    rw [if_pos ⟨by simp [habs], hbig⟩]
    rfl
  · intro hsmall
    rw [emitOrphan]
    rw [if_neg (fun hc => absurd hc.2 (not_lt.2 hsmall))]
    rfl

/-- Witness for C2 at a concrete input: 20% gold held while gold is
absent from the target yields exactly one SELL of 20 for gold. -/
theorem calculateRebalance_orphan_asset_spec_witness :
    assetTxs (calculateRebalance [("gold", 20)] [("stocks", 100)] "u1" "t1") "gold"
      = [⟨"u1", "SELL", "gold", 20, "t1"⟩] :=
  (calculateRebalance_orphan_asset_spec [("gold", 20)] [("stocks", 100)]
      "u1" "t1" "gold" 20 (by simp) (by simp [containsKey]) (by simp)).1
    (by norm_num)

theorem sumValues_ok_iff (A : Allocation) (acc t : ℚ) :
    sumValues A acc = .ok t ↔ (∀ p ∈ A, 0 ≤ p.2) ∧ t = acc + sumOf A := by
  induction A generalizing acc with
  | nil => simp [sumValues, sumOf, eq_comm]
  | cons hd tl ih =>
    obtain ⟨a, q⟩ := hd
    by_cases hq : q < 0
    · simp only [sumValues, if_pos hq]
      constructor
      · intro h
        exact Except.noConfusion h
      · rintro ⟨hnn, -⟩
        exact absurd (hnn (a, q) (List.mem_cons_self _ _)) (not_le.2 hq)
    · simp only [sumValues, if_neg hq, ih]
      constructor
      · rintro ⟨hnn, rfl⟩
        refine ⟨fun p hp => ?_, ?_⟩
        · rcases List.mem_cons.1 hp with rfl | hp
          · exact not_lt.1 hq
          · exact hnn p hp
        · simp [sumOf]
          ring
      · rintro ⟨hnn, rfl⟩
        refine ⟨fun p hp => hnn p (List.mem_cons_of_mem _ hp), ?_⟩
        simp [sumOf]
        ring

theorem sumValues_error_negative (A : Allocation) (acc : ℚ) (e : AllocError)
    (h : sumValues A acc = .error e) : ∃ a, e = .negative a := by
  induction A generalizing acc with
  | nil => exact Except.noConfusion h
  | cons hd tl ih =>
    obtain ⟨a, q⟩ := hd
    by_cases hq : q < 0
    · rw [sumValues, if_pos hq] at h
      cases h
      exact ⟨a, rfl⟩
    · rw [sumValues, if_neg hq] at h
      exact ih _ h

/-- C3: `ValidateAllocation` succeeds exactly when the mapping is
non-empty, all values are non-negative (zero permitted), and the value
sum is within 0.01 of 100; a sum failure reports the actual sum. -/
theorem validateAllocation_spec (A : Allocation) :
    (validateAllocation A = .ok () ↔
      A ≠ [] ∧ (∀ p ∈ A, 0 ≤ p.2) ∧ |sumOf A - 100| ≤ 1/100) ∧
    (∀ t, validateAllocation A = .error (.badSum t) → t = sumOf A) := by
  rw [validateAllocation]
  by_cases hA : A.length = 0
  · rw [if_pos hA]
    rw [List.length_eq_zero] at hA
    constructor
    · simp [hA]
    · intro t h
      cases h
  · rw [if_neg hA]
    cases hs : sumValues A 0 with
    | error e =>
      obtain ⟨a, rfl⟩ := sumValues_error_negative A 0 e hs
      constructor
      · constructor
        · intro h
          exact Except.noConfusion h
        · rintro ⟨-, hnn, -⟩
          have : sumValues A 0 = .ok (0 + sumOf A) :=
            (sumValues_ok_iff A 0 _).2 ⟨hnn, rfl⟩
          rw [hs] at this
          exact Except.noConfusion this
      · intro t h
        cases h
    | ok total =>
      obtain ⟨hnn, htot⟩ := (sumValues_ok_iff A 0 total).1 hs
      rw [zero_add] at htot
      dsimp only
      by_cases hbig : |total - 100| > 1/100
      · rw [if_pos hbig]
        constructor
        · constructor
          · intro h
            exact Except.noConfusion h
          · rintro ⟨-, -, hle⟩
            rw [htot] at hbig
            exact absurd hle (not_le.2 hbig)
        · intro t h
          cases h
          exact htot
      · rw [if_neg hbig]
        constructor
        · refine ⟨fun _ => ⟨fun h => hA (by rw [h]; rfl), hnn, ?_⟩, fun _ => rfl⟩
          rw [← htot]
          exact not_lt.1 hbig
        · intro t h
          exact Except.noConfusion h

/-- Witness for C3: the spec's Example 3 — an allocation summing to 105
is rejected with the actual sum reported — and a valid 60/40 allocation
is accepted. -/
theorem validateAllocation_spec_witness :
    (105 : ℚ) = sumOf [("stocks", 60), ("bonds", 30), ("gold", 15)] ∧
    validateAllocation [("stocks", 60), ("bonds", 40)] = .ok () :=
  ⟨(validateAllocation_spec [("stocks", 60), ("bonds", 30), ("gold", 15)]).2 105
      (by norm_num [validateAllocation, sumValues]),
   (validateAllocation_spec [("stocks", 60), ("bonds", 40)]).1.2
      ⟨by simp, by norm_num [sumOf], by norm_num [sumOf]⟩⟩

theorem applyBatch_no_key {b : List RebalanceTransaction} {k : String}
    (h : ∀ tx ∈ b, docID tx ≠ k) (s : Store) : applyBatch s b k = s k := by
  induction b generalizing s with
  | nil => rfl
  | cons t rest ih =>
    have ht : docID t ≠ k := h t (List.mem_cons_self _ _)
    rw [applyBatch, List.foldl_cons]
    rw [show (List.foldl saveTransaction (saveTransaction s t) rest)
        = applyBatch (saveTransaction s t) rest from rfl]
    rw [ih (fun tx htx => h tx (List.mem_cons_of_mem _ htx))]
    rw [saveTransaction]
    rw [if_neg (fun he => ht he.symm)]

theorem applyBatch_key_determined {b : List RebalanceTransaction} {k : String}
    (h : ∃ tx ∈ b, docID tx = k) (s s' : Store) :
    applyBatch s b k = applyBatch s' b k := by
  induction b generalizing s s' with
  | nil => simp at h
  | cons t rest ih =>
    rw [applyBatch, List.foldl_cons, applyBatch, List.foldl_cons]
    by_cases hrest : ∃ tx ∈ rest, docID tx = k
    · exact ih hrest _ _
    · obtain ⟨tx, htx, hkey⟩ := h
      have htk : docID t = k := by
        rcases List.mem_cons.1 htx with rfl | hmem
        · exact hkey
        · exact absurd ⟨tx, hmem, hkey⟩ hrest
      have hnone : ∀ tx ∈ rest, docID tx ≠ k :=
        fun tx2 htx2 hk2 => hrest ⟨tx2, htx2, hk2⟩
      rw [show (List.foldl saveTransaction (saveTransaction s t) rest)
          = applyBatch (saveTransaction s t) rest from rfl]
      rw [show (List.foldl saveTransaction (saveTransaction s' t) rest)
          = applyBatch (saveTransaction s' t) rest from rfl]
      rw [applyBatch_no_key hnone, applyBatch_no_key hnone]
      simp [saveTransaction, htk.symm]

/-- C4: persisting the same transaction twice (and redelivering a whole
batch) leaves the Store exactly as a single delivery does; the
persistence key is the composite string userID_asset_timestamp. -/
theorem saveTransaction_idempotent (s : Store) (tx : RebalanceTransaction)
    (b : List RebalanceTransaction) :
    saveTransaction (saveTransaction s tx) tx = saveTransaction s tx ∧
    applyBatch (applyBatch s b) b = applyBatch s b ∧
    docID tx = tx.userID ++ "_" ++ tx.asset ++ "_" ++ tx.timestamp := by
  refine ⟨?_, ?_, rfl⟩
  · funext k
    by_cases hk : k = docID tx <;> simp [saveTransaction, hk]
  · funext k
    by_cases hk : ∃ t ∈ b, docID t = k
    · exact applyBatch_key_determined hk _ _
    · have hno : ∀ t ∈ b, docID t ≠ k := fun t ht h => hk ⟨t, ht, h⟩
      rw [applyBatch_no_key hno]

theorem attemptAll_attempted
    (save : Store → RebalanceTransaction → Except String Store)
    (s : Store) (b : List RebalanceTransaction) :
    (attemptAll save s b).2 = b := by
  induction b generalizing s with
  | nil => rfl
  | cons t rest ih =>
    rw [attemptAll]
    rw [ih]

/-- C5: `ProcessTransactions` returns success for every message and
every Store behaviour — empty and non-deserializable payloads are
discarded without error, and when a batch deserializes, every
transaction of the batch is attempted even if some saves fail. -/
theorem processTransactions_total_spec
    (parse : List Nat → Option (List RebalanceTransaction))
    (save : Store → RebalanceTransaction → Except String Store)
    (store : Store) (message : List Nat) :
    (processTransactions parse save store message).result = .ok () ∧
    (∀ txs, message ≠ [] → parse message = some txs →
       (processTransactions parse save store message).attempted = txs) := by
  constructor
  · rw [processTransactions]
    by_cases hm : message.length = 0
    · rw [if_pos hm]
    · rw [if_neg hm]
      cases parse message with
      | none => rfl
      | some txs =>
        dsimp only
        by_cases ht : txs.length = 0
        · rw [if_pos ht]
        · rw [if_neg ht]
  · intro txs hm hp
    have hlen : ¬ message.length = 0 := by
      simpa [List.length_eq_zero] using hm
    rw [processTransactions, if_neg hlen, hp]
    dsimp only
    by_cases ht : txs.length = 0
    · rw [if_pos ht]
      rw [List.length_eq_zero] at ht
      simp [ht]
    · rw [if_neg ht]
      exact attemptAll_attempted save store txs

/-- Witness for C5: concrete consumer run in which the Store rejects
every save — the message still processes successfully and the whole
batch was attempted. -/
theorem processTransactions_total_spec_witness :
    (processTransactions
        (fun _ => some [⟨"u1", "BUY", "stocks", 5, "t1"⟩])
        (fun _ _ => .error "persistence down")
        (fun _ => none) [7]).result = .ok () ∧
    (processTransactions
        (fun _ => some [⟨"u1", "BUY", "stocks", 5, "t1"⟩])
        (fun _ _ => .error "persistence down")
        (fun _ => none) [7]).attempted = [⟨"u1", "BUY", "stocks", 5, "t1"⟩] :=
  ⟨(processTransactions_total_spec _ _ _ _).1,
   (processTransactions_total_spec _ _ _ _).2 _ (by simp) rfl⟩

/-- C7: publishing an empty transaction batch returns success
immediately and hands no payload to the Queue, whatever the serializer
and queue behaviours are. -/
theorem publishRebalanceTransactions_empty_noop
    (serialize : List RebalanceTransaction → Option (List Nat))
    (publish : List Nat → Except String Unit) :
    publishRebalanceTransactions serialize publish [] = (.ok (), []) := rfl

/-- C9: with no Kafka writer configured, `Publish` is a no-op success
for every message: no send happens and no error is returned. -/
theorem kafkaPublish_no_writer_ok (message : List Nat) :
    kafkaPublish none message = (.ok (), []) := rfl

/-- C6: in the rebalance operation, a publish failure is reported as a
server failure and leaves the stored portfolio untouched; on publish
success the response carries the computed batch even when the
best-effort portfolio update fails, and a failed update leaves the
store unchanged. -/
theorem handleRebalance_publish_gate
    (env : RebalanceEnv) (store : PortfolioStore) (req : UpdatedPortfolio)
    (ts : String) (portfolio : Portfolio)
    (h1 : req.userID ≠ "") (h2 : req.newAllocation.length ≠ 0)
    (h3 : validateAllocation req.newAllocation = .ok ())
    (h4 : store req.userID = some portfolio) :
    (∀ e, (publishRebalanceTransactions env.serialize env.publish
        (calculateRebalance req.newAllocation portfolio.originalAllocation
          req.userID ts)).1 = .error e →
      handleRebalance env store req ts =
        (.serverError "Failed to queue rebalance transactions. Please try again",
         store)) ∧
    ((publishRebalanceTransactions env.serialize env.publish
        (calculateRebalance req.newAllocation portfolio.originalAllocation
          req.userID ts)).1 = .ok () →
      (handleRebalance env store req ts).1 =
        .ok req.userID
          (calculateRebalance req.newAllocation portfolio.originalAllocation
            req.userID ts)
          (calculateRebalance req.newAllocation portfolio.originalAllocation
            req.userID ts).length
          (if (calculateRebalance req.newAllocation portfolio.originalAllocation
              req.userID ts).length = 0 then
            "No rebalancing needed - portfolio already at target allocation"
          else "Rebalance transactions queued for processing") ∧
      (env.updateOk = false → (handleRebalance env store req ts).2 = store)) := by
  rw [handleRebalance, if_neg h1, if_neg h2, h3, h4]
  dsimp only
  constructor
  · intro e he
    rw [he]
  · intro hok
    rw [hok]
    refine ⟨rfl, fun hupd => ?_⟩
    dsimp only
    rw [hupd]
    rfl

/-- Witness for C6 at concrete inputs: with a failing queue the request
fails and the store is untouched; with a healthy queue but a failing
portfolio update the request succeeds and the store is untouched. -/
theorem handleRebalance_publish_gate_witness :
    handleRebalance ⟨fun _ => some [0], fun _ => .error "kafka down", true⟩
        (fun k => if k = "user1" then
          some ⟨"user1", [("stocks", 50), ("bonds", 50)],
                [("stocks", 50), ("bonds", 50)]⟩ else none)
        ⟨"user1", [("stocks", 60), ("bonds", 40)]⟩ "t1"
      = (.serverError "Failed to queue rebalance transactions. Please try again",
         fun k => if k = "user1" then
           some ⟨"user1", [("stocks", 50), ("bonds", 50)],
                 [("stocks", 50), ("bonds", 50)]⟩ else none) ∧
    (handleRebalance ⟨fun _ => some [0], fun _ => .ok (), false⟩
        (fun k => if k = "user1" then
          some ⟨"user1", [("stocks", 50), ("bonds", 50)],
                [("stocks", 50), ("bonds", 50)]⟩ else none)
        ⟨"user1", [("stocks", 60), ("bonds", 40)]⟩ "t1").2
      = (fun k => if k = "user1" then
          some ⟨"user1", [("stocks", 50), ("bonds", 50)],
                [("stocks", 50), ("bonds", 50)]⟩ else none) := by
  have htx : calculateRebalance [("stocks", 60), ("bonds", 40)]
      [("stocks", 50), ("bonds", 50)] "user1" "t1"
      = [⟨"user1", "SELL", "stocks", 10, "t1"⟩,
         ⟨"user1", "BUY", "bonds", 10, "t1"⟩] := by
    simp only [calculateRebalance, emitTarget, emitOrphan, lookupD,
      containsKey, List.filterMap_cons, List.filterMap_nil, String.reduceEq]
    norm_num [abs_of_nonpos, abs_of_nonneg]
  constructor
  · apply (handleRebalance_publish_gate _ _ _ "t1"
        ⟨"user1", [("stocks", 50), ("bonds", 50)], [("stocks", 50), ("bonds", 50)]⟩
        (by simp) (by simp) (by norm_num [validateAllocation, sumValues])
        (by simp)).1 "failed to publish transactions: kafka down"
    dsimp only
    rw [htx]
    rfl
  · refine ((handleRebalance_publish_gate _ _ _ "t1"
        ⟨"user1", [("stocks", 50), ("bonds", 50)], [("stocks", 50), ("bonds", 50)]⟩
        (by simp) (by simp) (by norm_num [validateAllocation, sumValues])
        (by simp)).2 ?_).2 rfl
    dsimp only
    rw [htx]
    rfl

theorem emitOrphan_some_not_contains {tg : Allocation} {u t : String}
    {e : String × ℚ} {tx : RebalanceTransaction}
    (h : emitOrphan tg u t e = some tx) : containsKey tg e.1 = false := by
  simp only [emitOrphan] at h
  split_ifs at h with hc
  exact Bool.eq_false_iff.2 hc.1

theorem emitTarget_fields {c : Allocation} {u t : String} {e : String × ℚ}
    {tx : RebalanceTransaction} (h : emitTarget c u t e = some tx) :
    tx.userID = u ∧ tx.timestamp = t ∧ 1/100 ≤ tx.rebalancePercent := by
  simp only [emitTarget] at h
  split_ifs at h with h1 h2
  · cases h
    refine ⟨rfl, rfl, ?_⟩
    have hb := not_lt.1 h1
    rw [abs_of_pos h2] at hb
    exact hb
  · cases h
    exact ⟨rfl, rfl, not_lt.1 h1⟩

theorem emitOrphan_fields {tg : Allocation} {u t : String} {e : String × ℚ}
    {tx : RebalanceTransaction} (h : emitOrphan tg u t e = some tx) :
    tx.userID = u ∧ tx.timestamp = t ∧ 1/100 ≤ tx.rebalancePercent := by
  simp only [emitOrphan] at h
  split_ifs at h with hc
  cases h
  exact ⟨rfl, rfl, hc.2.le⟩

/-- C8 counterexample: for current 100.005% stocks against a 100% stocks
target the per-asset difference is the nonzero 0.005, yet the dead band
makes `CalculateRebalance` emit nothing at all — so not every asset with
a nonzero difference is represented in the batch. -/
theorem calculateRebalance_deadband_counterexample :
    lookupD [("stocks", (20001 : ℚ)/200)] "stocks"
        - lookupD [("stocks", 100)] "stocks" ≠ 0 ∧
    calculateRebalance [("stocks", (20001 : ℚ)/200)] [("stocks", 100)]
        "u1" "t1" = [] := by
  constructor
  · norm_num [lookupD]
  · norm_num [calculateRebalance, emitTarget, emitOrphan, lookupD,
      containsKey, abs_of_pos, abs_of_nonpos]

/-- C8 (amended): every BUY of `p` at asset `a` in the batch implies
`target[a] - current[a] = p` and every SELL implies
`current[a] - target[a] = p` (missing values read as 0); and every
target asset whose absolute difference reaches the 0.01 dead band, as
well as every non-target asset whose current value exceeds 0.01, is
represented in the batch.  (Assets with a nonzero difference smaller
than the dead band are deliberately not represented.) -/
theorem calculateRebalance_diff_reconstruction
    (current target : Allocation) (u ts : String)
    (hndc : (current.map Prod.fst).Nodup)
    (hndt : (target.map Prod.fst).Nodup) :
    (∀ tx ∈ calculateRebalance current target u ts,
       (tx.action = "SELL" →
          lookupD current tx.asset - lookupD target tx.asset
            = tx.rebalancePercent) ∧
       (tx.action = "BUY" →
          lookupD target tx.asset - lookupD current tx.asset
            = tx.rebalancePercent)) ∧
    (∀ a tp, (a, tp) ∈ target → 1/100 ≤ |lookupD current a - tp| →
       assetTxs (calculateRebalance current target u ts) a ≠ []) ∧
    (∀ a cp, (a, cp) ∈ current → containsKey target a = false →
       1/100 < cp →
       assetTxs (calculateRebalance current target u ts) a ≠ []) := by
  refine ⟨?_, ?_, ?_⟩
  · intro tx htx
    rcases mem_calculateRebalance.1 htx with ⟨e, he, hsome⟩ | ⟨e, he, hsome⟩
    · obtain ⟨a, tp⟩ := e
      have hta : lookupD target a = tp := lookupD_eq_of_mem_nodup hndt he
      simp only [emitTarget] at hsome
      split_ifs at hsome with h1 h2
      · cases hsome
        constructor
        · intro _
          rw [hta]
        · intro hact
          simp at hact
      · cases hsome
        constructor
        · intro hact
          simp at hact
        · intro _
          rw [hta]
          rw [abs_of_nonpos (not_lt.1 h2)]
          ring
    · obtain ⟨a, cp⟩ := e
      have hca : lookupD current a = cp := lookupD_eq_of_mem_nodup hndc he
      have htg : containsKey target a = false :=
        emitOrphan_some_not_contains hsome
      simp only [emitOrphan] at hsome
      split_ifs at hsome with hc
      cases hsome
      constructor
      · intro _
        rw [hca, lookupD_eq_zero_of_not_contains htg]
        ring
      · intro hact
        simp at hact
  · intro a tp hmem hge
    rw [assetTxs_of_mem_target current target u ts a tp hmem hndt]
    rw [emitTarget]
    rw [if_neg (not_lt.2 hge)]
    split_ifs <;> simp
  · intro a cp hmem htg hgt
    rw [assetTxs_of_orphan current target u ts a cp hmem htg hndc]
    rw [emitOrphan]
    rw [if_pos ⟨by simp [htg], hgt⟩]
    simp

/-- Witness for C8's amended claim at a concrete input: a 20% gold
holding absent from the target is represented in the batch. -/
theorem calculateRebalance_diff_reconstruction_witness :
    assetTxs (calculateRebalance [("gold", 20)] [("stocks", 100)]
        "u1" "t1") "gold" ≠ [] :=
  (calculateRebalance_diff_reconstruction [("gold", 20)] [("stocks", 100)]
      "u1" "t1" (by simp) (by simp)).2.2 "gold" 20 (by simp)
    (by simp [containsKey]) (by norm_num)

theorem calculateRebalance_assets_nodup
    (current target : Allocation) (u ts : String)
    (hndc : (current.map Prod.fst).Nodup)
    (hndt : (target.map Prod.fst).Nodup) :
    ((calculateRebalance current target u ts).map
      (fun tx => tx.asset)).Nodup := by
  rw [calculateRebalance, List.map_append]
  refine List.Nodup.append ?_ ?_ ?_
  · exact ((filterMap_asset_sublist _
      (fun x tx h => emitTarget_asset h) target).nodup hndt)
  · exact ((filterMap_asset_sublist _
      (fun x tx h => emitOrphan_asset h) current).nodup hndc)
  · intro x hx1 hx2
    obtain ⟨tx1, htx1, hxa1⟩ := List.mem_map.1 hx1
    obtain ⟨tx2, htx2, hxa2⟩ := List.mem_map.1 hx2
    obtain ⟨e1, he1, hs1⟩ := List.mem_filterMap.1 htx1
    obtain ⟨e2, he2, hs2⟩ := List.mem_filterMap.1 htx2
    have hk1 : e1.1 = x := (emitTarget_asset hs1).symm.trans hxa1
    have hk2 : e2.1 = x := (emitOrphan_asset hs2).symm.trans hxa2
    have hcont : containsKey target x = true := by
      rw [← hk1]
      exact containsKey_of_mem (show (e1.1, e1.2) ∈ target by simpa using he1)
    have hnot : containsKey target x = false :=
      hk2 ▸ emitOrphan_some_not_contains hs2
    rw [hcont] at hnot
    exact Bool.noConfusion hnot

theorem calculateRebalance_uniform
    (current target : Allocation) (u ts : String) :
    ∀ tx ∈ calculateRebalance current target u ts,
      tx.userID = u ∧ tx.timestamp = ts ∧ 1/100 ≤ tx.rebalancePercent := by
  intro tx htx
  rcases mem_calculateRebalance.1 htx with ⟨e, _, hsome⟩ | ⟨e, _, hsome⟩
  · exact emitTarget_fields hsome
  · exact emitOrphan_fields hsome

theorem docID_asset_inj {t1 t2 : RebalanceTransaction}
    (hu : t1.userID = t2.userID) (hts : t1.timestamp = t2.timestamp)
    (h : docID t1 = docID t2) : t1.asset = t2.asset := by
  apply String.ext
  have hd := congrArg String.data h
  simp only [docID, hu, hts, String.data_append, List.append_assoc] at hd
  have hd2 := List.append_cancel_left hd
  have hd3 := List.append_cancel_left hd2
  exact List.append_cancel_right hd3

/-- C10: a batch holds at most one transaction per asset, every emitted
transaction's rebalance percentage reaches the 0.01 dead band, and the
persistence keys — both as (user, asset, timestamp) triples and as the
composite document-id strings — are pairwise distinct within a batch. -/
theorem calculateRebalance_batch_invariants
    (current target : Allocation) (u ts : String)
    (hndc : (current.map Prod.fst).Nodup)
    (hndt : (target.map Prod.fst).Nodup) :
    (∀ a, (assetTxs (calculateRebalance current target u ts) a).length ≤ 1) ∧
    (∀ tx ∈ calculateRebalance current target u ts,
       1/100 ≤ tx.rebalancePercent) ∧
    List.Pairwise (fun t1 t2 =>
        ¬(t1.userID = t2.userID ∧ t1.asset = t2.asset ∧
          t1.timestamp = t2.timestamp))
      (calculateRebalance current target u ts) ∧
    List.Pairwise (fun t1 t2 => docID t1 ≠ docID t2)
      (calculateRebalance current target u ts) := by
  have hassets := calculateRebalance_assets_nodup current target u ts hndc hndt
  have hpw : List.Pairwise (fun t1 t2 => t1.asset ≠ t2.asset)
      (calculateRebalance current target u ts) :=
    List.pairwise_map.1 hassets
  have huni := calculateRebalance_uniform current target u ts
  refine ⟨fun a => length_filter_le_one_of_nodup hassets a,
    fun tx htx => (huni tx htx).2.2, ?_, ?_⟩
  · exact hpw.imp (fun hne hand => hne hand.2.1)
  · refine hpw.imp_of_mem (fun h1 h2 hne hdoc => ?_)
    have hu := ((huni _ h1).1).trans ((huni _ h2).1).symm
    have hts2 := ((huni _ h1).2.1).trans ((huni _ h2).2.1).symm
    exact hne (docID_asset_inj hu hts2 hdoc)

/-- Witness for C10 at a concrete input (the spec's Example 2 shape):
the batch holds at most one transaction for the asset "gold". -/
theorem calculateRebalance_batch_invariants_witness :
    (assetTxs (calculateRebalance [("stocks", 50), ("bonds", 30), ("gold", 20)]
        [("stocks", 60), ("bonds", 40)] "u1" "t1") "gold").length ≤ 1 :=
  (calculateRebalance_batch_invariants
      [("stocks", 50), ("bonds", 30), ("gold", 20)]
      [("stocks", 60), ("bonds", 40)] "u1" "t1"
      (by simp) (by simp)).1 "gold"

end PortfolioRebalancer
